import Mathlib

/-
Verification of the sedshell interactive per-line command dispatcher.

The definitions below are a shallow embedding of the Python sources:
  - sedshell/sedshell.py   (dispatch engine, shell runner, keybinding store)
  - sedshell/commands.py   (Command abstraction, skip-while / skip-until)
  - sedshell/test_pipe.py  (the blocking Pipe stream used as test terminal/stdin)

External effects are modelled explicitly:
  - shell execution (subprocess.Popen in run_command) is an oracle
    exec : String -> Bool mapping the full command line to its exit success;
  - terminal prompts (terminal.readline / readchar) are passed as parameters;
  - the JSON data file behind ShellCommandStore is a value of type StoreData
    threaded through store/lookup, mirroring read-modify-write of data.json.
-/

namespace Sedshell

/-! ## Shell execution (sedshell.py, run_command / ShellRunner) -/

/-- Embeds run_command lines 258-263: the executed shell command line is
the format string joining command and line with a single space. -/
def fullCommand (cmd line : String) : String := cmd ++ " " ++ line

/-- Embeds run_command: spawn the full command through a shell and report
whether the return code is zero.  The subprocess itself is the oracle
exec, which assigns each full command line its exit success. -/
def runCommand (exec : String → Bool) (cmd line : String) : Bool :=
  exec (fullCommand cmd line)

/-- A history entry as appended by ShellRunner._read_command: the command
text together with its consume flag. -/
abbrev History := List (String × Bool)

/-- Embeds ShellRunner._history[-1] (Python negative indexing): the last
entry of the history list; none models the IndexError raised on an
empty list. -/
def lastEntry : History → Option (String × Bool)
  | [] => none
  | cv :: rest =>
    match lastEntry rest with
    | none => some cv
    | some v => some v

/-- Embeds ShellRunner.run (lines 200-204): _read_command prompts the
terminal for a command (modelled by the cmdInput parameter), appends
(command, True) to the history, runs the command against the line and
returns the subprocess's exit success as handle_line's result. -/
def shellRun (exec : String → Bool) (h : History) (cmdInput line : String) :
    Bool × History :=
  (runCommand exec cmdInput line, h ++ [(cmdInput, true)])

/-- Embeds ShellRunner.run_no_consume (lines 211-215): prompts, appends
(command, False) to the history, runs the command and always returns
False. -/
def shellRunNoConsume (exec : String → Bool) (h : History) (cmdInput line : String) :
    Bool × History :=
  let _succeeded := runCommand exec cmdInput line
  (false, h ++ [(cmdInput, false)])

/-! ## Keybinding store (sedshell.py, ShellCommandStore) -/

/-- The JSON document behind data.json: the dictionary under the
"commands" key, mapping a key character to the pair
[command text, consume flag]. -/
abbrev StoreData := List (Char × (String × Bool))

/-- Embeds dictionary assignment in ShellCommandStore.store (lines
105-108): replace the binding for the key if present, otherwise append
it. -/
def storeSet (d : StoreData) (k : Char) (cmd : String) (flag : Bool) : StoreData :=
  match d with
  | [] => [(k, (cmd, flag))]
  | (k0, v0) :: rest =>
    if k0 == k then (k, (cmd, flag)) :: rest
    else (k0, v0) :: storeSet rest k cmd flag

/-- Embeds the dictionary lookup char in commands used by
ShellCommandStore.lookup (lines 110-121). -/
def storeGet? (d : StoreData) (k : Char) : Option (String × Bool) :=
  match d with
  | [] => none
  | (k0, v) :: rest => if k0 == k then some v else storeGet? rest k

/-- Embeds the runner closure built by ShellCommandStore.lookup: the
returned command's handle_line runs the stored command against the
dispatched line through run_command (whose success is discarded) and
returns the stored consume flag.  The runner's value records the full
shell command line it executed (its observable effect) together with
the flag it reported as finished. -/
def lookupRunner (exec : String → Bool) (d : StoreData) (k : Char) :
    Option (String → String × Bool) :=
  match storeGet? d k with
  | some cv =>
    some (fun line =>
      let _succeeded := exec (fullCommand cv.1 line)
      (fullCommand cv.1 line, cv.2))
  | none => none

/-- Embeds ShellRunner.repeat (lines 217-222): read the last history
entry (IndexError on empty history, modelled by none), run it against
the line, and return consume AND exit success. -/
def shellRepeat (exec : String → Bool) (h : History) (line : String) : Option Bool :=
  match lastEntry h with
  | none => none
  | some cv => some (cv.2 && runCommand exec cv.1 line)

/-- Embeds ShellRunner.save_last (lines 242-251): read the last history
entry (IndexError on empty history, modelled by none), persist it in the
store under the prompted key and return False. -/
def saveLast (h : History) (d : StoreData) (k : Char) : Option (StoreData × Bool) :=
  match lastEntry h with
  | none => none
  | some cv => some (storeSet d k cv.1 cv.2, false)

/-! ## Help menus (sedshell.py, menu / format_key / ShellCommandStore.menu) -/

/-- Python 2 string.letters in the C locale, as indexed by format_key. -/
def letters : List Char :=
  "abcdefghijklmnopqrstuvwxyzABCDEFGHIJKLMNOPQRSTUVWXYZ".toList

/-- Embeds format_key (lines 180-186).  Python indexes
string.letters[ord(key) - 1]; for the NUL key this index is -1, which in
Python wraps around to the final letter. -/
def formatKey (k : Char) : String :=
  if k.toNat ≤ 26 then
    String.mk ['C', '-', if k.toNat = 0 then 'Z' else letters.getD (k.toNat - 1) ' ']
  else if k = ' ' then "SPACE"
  else String.mk [k]

/-- Insertion step for sorting menu entries by key character, embedding
Python sorted over the dictionary items. -/
def insertByKey (x : Char × α) : List (Char × α) → List (Char × α)
  | [] => [x]
  | y :: ys => if x.1.toNat ≤ y.1.toNat then x :: y :: ys else y :: insertByKey x ys

/-- Sorting of menu entries by key character. -/
def sortByKey (xs : List (Char × α)) : List (Char × α) :=
  xs.foldr insertByKey []

/-- The built-in command table constructed in run (lines 45-57), with
each command's doc string as rendered by menu. -/
def builtinTable : List (Char × String) := [
  ('!', "Run a shell command on the line"),
  ('&', "Run a shell command, but allow other commands to run"),
  ('\x04', "Exit"),
  ('^', "Repeat the last command"),
  ('$', "Start an interactive shell"),
  ('>', "Save the last command to a key"),
  ('<', "Run a command and print output (ignoring line)"),
  (' ', "Skip this line"),
  ('?', "List commands"),
  ('\\', "Skip entries until a regular expression stops matching"),
  ('/', "Skip entries until a regular expression matches")]

/-- The keys of the built-in command table. -/
def builtinKeys : List Char := builtinTable.map (fun kc => kc.1)

/-- Embeds menu (lines 173-178): one sorted line per built-in binding. -/
def menuString (cmds : List (Char × String)) : String :=
  let ls := (sortByKey cmds).map (fun kc => formatKey kc.1 ++ " - " ++ kc.2)
  "\n" ++ String.intercalate "\n" ls ++ "\n\n"

/-- Embeds ShellCommandStore.menu (lines 122-129): one sorted line per
stored binding, marking consume=true bindings with an exclamation mark
and consume=false bindings with an ampersand. -/
def storeMenu (d : StoreData) : String :=
  let ls := (sortByKey d).map (fun kv =>
    String.mk [kv.1] ++ " - " ++ (if kv.2.2 then "!" else "&") ++ " " ++ kv.2.1)
  "\n" ++ String.intercalate "\n" ls ++ "\n"

/-- The two strings written by show_help (lines 38-43): the built-in menu
followed by the stored-binding menu. -/
def showHelpOutput (d : StoreData) : List String :=
  [menuString builtinTable, storeMenu d]

/-! ## Keystroke resolution and inner dispatch loop (sedshell.py run, lines 74-92) -/

/-- The result of resolving one keystroke at line 82:
shell_store.lookup(c) or commands.get(c).  A stored user binding carries
its command text and consume flag; a built-in is identified by its key;
unbound means both lookups failed (Python None). -/
inductive Resolution
  | stored (command : String) (consume : Bool)
  | builtin (key : Char)
  | unbound
deriving DecidableEq

/-- Embeds line 82: the persisted store is consulted first, and only a
missing store entry falls back to the built-in table (Python or on the
truthy command class). -/
def resolveKeystroke (d : StoreData) (c : Char) : Resolution :=
  match storeGet? d c with
  | some cv => Resolution.stored cv.1 cv.2
  | none => if c ∈ builtinKeys then Resolution.builtin c else Resolution.unbound

/-- The engine's reaction to one keystroke (lines 82-87): either a
command is instantiated from the resolution, or the keystroke is
unresolvable and show_help's output is written before re-prompting. -/
inductive DispatchOutcome
  | command (r : Resolution)
  | helpShown (out : List String)
deriving DecidableEq

/-- Embeds lines 82-87: resolve the keystroke; when nothing resolves the
engine writes the help menus and continues, otherwise the resolved
command will handle the line. -/
def dispatchKeystroke (d : StoreData) (c : Char) : DispatchOutcome :=
  match resolveKeystroke d c with
  | Resolution.unbound => DispatchOutcome.helpShown (showHelpOutput d)
  | r => DispatchOutcome.command r

/-- Embeds the inner loop (lines 74-92) for a single input line,
restricted to commands that are done immediately (done_processing =
true, as for every Command.from_function command).  The keystrokes the
terminal will yield are given as a list; hl gives each resolved
command's handle_line result on the line.  Returns whether the line was
finished and the help menus written along the way. -/
def lineLoop (d : StoreData) (hl : Resolution → String → Bool) (line : String) :
    List Char → Bool × List (List String)
  | [] => (false, [])
  | c :: ks =>
    match dispatchKeystroke d c with
    | DispatchOutcome.helpShown out =>
      let rest := lineLoop d hl line ks
      (rest.1, out :: rest.2)
    | DispatchOutcome.command r =>
      if hl r line then (true, [])
      else lineLoop d hl line ks

/-! ## Outer main loop (sedshell.py run, lines 64-92) -/

/-- Whitespace as stripped by Python str.strip (ASCII subset). -/
def pyIsSpace (c : Char) : Bool :=
  c == ' ' || c == '\t' || c == '\n' || c == '\r' || c == '\x0b' || c == '\x0c'

/-- Embeds Python str.strip(): remove leading and trailing whitespace. -/
def pyStrip (s : List Char) : List Char :=
  ((s.dropWhile pyIsSpace).reverse.dropWhile pyIsSpace).reverse

/-- Embeds the outer structure of the main loop (lines 64-71): each
iteration reads one raw line from the input stream, strips it, breaks
when the stripped line is empty, and otherwise dispatches the stripped
line through the inner loop (which reads no further input lines).
Returns the dispatched lines in order, for runs in which no exit
command fires and every line's inner loop terminates. -/
def outerLoop : List (List Char) → List (List Char)
  | [] => []
  | raw :: rest =>
    let line := pyStrip raw
    if line.isEmpty then [] else line :: outerLoop rest

/-! ## Skip-while / skip-until commands (commands.py) -/

/-- The mutable state of SkipWhileCommand / SkipUntilCommand: the lazily
prompted regex (None before the first handle_line call) and the
finished flag. -/
structure SkipState where
  regex : Option (List Char)
  finished : Bool
deriving DecidableEq

/-- Embeds SkipWhileCommand.handle_line (lines 42-52).  The regex engine
re.search(regex, line, re.IGNORECASE) is the external parameter search;
pin is the line the one-time Regex: prompt returns. -/
def skipWhileHandleLine (search : List Char → List Char → Bool) (pin : List Char)
    (s : SkipState) (line : List Char) : Bool × SkipState :=
  let r := match s.regex with
    | none => pin
    | some r0 => r0
  if search r line then (true, { regex := some r, finished := s.finished })
  else (false, { regex := some r, finished := true })

/-- Embeds SkipWhileCommand.done_processing (lines 54-55). -/
def skipWhileDone (s : SkipState) : Bool := s.finished

/-- Embeds SkipUntilCommand.handle_line (lines 67-77): symmetric to
skip-while, finishing on the first line that does match. -/
def skipUntilHandleLine (search : List Char → List Char → Bool) (pin : List Char)
    (s : SkipState) (line : List Char) : Bool × SkipState :=
  let r := match s.regex with
    | none => pin
    | some r0 => r0
  if search r line then (false, { regex := some r, finished := true })
  else (true, { regex := some r, finished := s.finished })

/-- Embeds SkipUntilCommand.done_processing (lines 79-80). -/
def skipUntilDone (s : SkipState) : Bool := s.finished

/-- Feeding a sequence of lines to one skip-while command instance, as
the engine does while the instance is not done: each line is passed to
handle_line, a True result consumes the line, and the first False
result stops with that line left unconsumed.  Returns the final command
state and the unconsumed remainder of the input. -/
def skipWhileFeed (search : List Char → List Char → Bool) (pin : List Char) :
    SkipState → List (List Char) → SkipState × List (List Char)
  | s, [] => (s, [])
  | s, l :: ls =>
    match skipWhileHandleLine search pin s l with
    | (true, s1) => skipWhileFeed search pin s1 ls
    | (false, s1) => (s1, l :: ls)

/-! ## Model of re.search with re.IGNORECASE on literal patterns -/

/-- ASCII lower-casing as applied by re.IGNORECASE to ASCII text. -/
def pyLower (c : Char) : Char :=
  if 65 ≤ c.toNat ∧ c.toNat ≤ 90 then Char.ofNat (c.toNat + 32) else c

/-- Case-insensitive character comparison. -/
def ciEqChar (a b : Char) : Bool := pyLower a == pyLower b

/-- Case-insensitive equality of two character lists. -/
def ciListEq : List Char → List Char → Bool
  | [], [] => true
  | a :: as, b :: bs => ciEqChar a b && ciListEq as bs
  | _, _ => false

/-- The pattern matches at the start of the line, case-insensitively. -/
def ciMatchesAt : List Char → List Char → Bool
  | [], _ => true
  | _ :: _, [] => false
  | a :: pa, b :: pb => ciEqChar a b && ciMatchesAt pa pb

/-- Models Python re.search(pat, line, re.IGNORECASE) for literal
patterns containing no regex metacharacters: an unanchored,
case-insensitive substring search, true exactly when the pattern
matches at some position of the line. -/
def reSearchCI (pat : List Char) : List Char → Bool
  | [] => ciMatchesAt pat []
  | c :: rest => ciMatchesAt pat (c :: rest) || reSearchCI pat rest

/-! ## Blocking stream (test_pipe.py, Pipe) -/

/-- One element of Pipe._buffer: either a written text chunk or the
CLOSE sentinel pushed by close(). -/
inductive Chunk
  | close
  | str (s : List Char)
deriving DecidableEq

/-- The state of a Pipe: the pending chunk buffer and the closed flag. -/
structure PipeState where
  buffer : List Chunk
  closed : Bool
deriving DecidableEq

/-- A freshly constructed Pipe (lines 53-58). -/
def freshPipe : PipeState := { buffer := [], closed := false }

/-- Embeds Pipe.write (lines 63-68): append the text as one chunk. -/
def pipeWrite (st : PipeState) (s : List Char) : PipeState :=
  { buffer := st.buffer ++ [Chunk.str s], closed := st.closed }

/-- Embeds Pipe.close (lines 134-137): set the closed flag, then write
the CLOSE sentinel into the buffer. -/
def pipeClose (st : PipeState) : PipeState :=
  { buffer := st.buffer ++ [Chunk.close], closed := true }

/-- A sequence of write calls in order. -/
def writeAll : List (List Char) → PipeState → PipeState
  | [], st => st
  | w :: ws, st => writeAll ws (pipeWrite st w)

/-- Embeds Python str.partition applied at the first newline: the text
before the first newline, and the text after it when one exists. -/
def partitionNl : List Char → List Char × Option (List Char)
  | [] => ([], none)
  | c :: cs =>
    if c = '\n' then ([], some cs)
    else
      let fr := partitionNl cs
      (c :: fr.1, fr.2)

/-- The terminator produced by Pipe._read_line_parts: more means None
(the buffer ran out before a newline), eof means the empty-string
terminator produced on the CLOSE sentinel, newline means a newline was
found. -/
inductive LineTerm
  | more
  | eof
  | newline
deriving DecidableEq

/-- Embeds Pipe._read_line_parts (lines 111-132): pop chunks in order,
collecting the newline-free prefix of each; stop with terminator eof on
the CLOSE sentinel (setting the closed flag) or with terminator newline
on the first chunk containing a newline (pushing the chunk's remainder
back onto the front of the buffer).  Returns the collected parts, the
terminator, the remaining buffer and the closed flag. -/
def readLineParts : List Chunk → Bool → List (List Char) × LineTerm × List Chunk × Bool
  | [], closed => ([], LineTerm.more, [], closed)
  | Chunk.close :: rest, _ => ([], LineTerm.eof, rest, true)
  | Chunk.str s :: rest, closed =>
    match partitionNl s with
    | (first, some second) => ([first], LineTerm.newline, Chunk.str second :: rest, closed)
    | (first, none) =>
      let pr := readLineParts rest closed
      (first :: pr.1, pr.2.1, pr.2.2)

/-- Embeds Pipe.readline (lines 92-109) with explicit fuel for the outer
while loop.  acc is the line_parts accumulator.  A newline terminator
returns the joined parts plus the newline; the eof terminator returns
the joined parts; terminator more with the closed flag set re-runs the
loop (Python continue, a busy wait); terminator more on an open stream
blocks on the event queue, which in this single-threaded model (no
concurrent writer) never returns.  none therefore means the call does
not return within the given fuel. -/
def readlineFuel : Nat → List (List Char) → PipeState → Option (List Char × PipeState)
  | 0, _, _ => none
  | Nat.succ n, acc, st =>
    match readLineParts st.buffer st.closed with
    | (parts, LineTerm.newline, buf, cl) =>
      some ((acc ++ parts).flatten ++ ['\n'], { buffer := buf, closed := cl })
    | (parts, LineTerm.eof, buf, cl) =>
      some ((acc ++ parts).flatten, { buffer := buf, closed := cl })
    | (parts, LineTerm.more, buf, cl) =>
      if cl then readlineFuel n (acc ++ parts) { buffer := buf, closed := cl }
      else none

/-- The text of one chunk; the CLOSE sentinel carries no text. -/
def chunkChars : Chunk → List Char
  | Chunk.close => []
  | Chunk.str s => s

/-- All characters pending in a chunk list, in order. -/
def chunksContent (b : List Chunk) : List Char :=
  (b.map chunkChars).flatten

/-- All characters pending in a pipe's buffer. -/
def pipeContent (st : PipeState) : List Char :=
  chunksContent st.buffer

/-- The scenario of TestPipe.test_readline: write both lines in one
chunk, then close. -/
def testReadlinePipe : PipeState :=
  pipeClose (pipeWrite freshPipe "one\ntwo\n".toList)

/-! ## Supporting lemmas -/

/-- The last entry of a nonempty history exists. -/
lemma lastEntry_cons_isSome (cv : String × Bool) (t : History) :
    ∃ v, lastEntry (cv :: t) = some v := by
  cases h : lastEntry t with
  | none => exact ⟨cv, by simp [lastEntry, h]⟩
  | some v => exact ⟨v, by simp [lastEntry, h]⟩

/-- Setting a key in the store and looking it up returns the new value. -/
lemma storeGet?_storeSet (d : StoreData) (k : Char) (cmd : String) (flag : Bool) :
    storeGet? (storeSet d k cmd flag) k = some (cmd, flag) := by
  induction d with
  | nil => simp [storeSet, storeGet?]
  | cons e rest ih =>
    obtain ⟨k0, v0⟩ := e
    by_cases hk : k0 == k
    · simp [storeSet, storeGet?, hk]
    · simp only [storeSet, storeGet?, hk]
      simpa [hk] using ih

/-- When partition finds a newline, the chunk splits into a newline-free
first part, the newline, and the remainder. -/
lemma partitionNl_some (s : List Char) :
    ∀ f sec, partitionNl s = (f, some sec) → s = f ++ '\n' :: sec ∧ '\n' ∉ f := by
  induction s with
  | nil =>
    intro f sec h
    simp [partitionNl] at h
  | cons c cs ih =>
    intro f sec h
    by_cases hc : c = '\n'
    · subst hc
      simp [partitionNl] at h
      obtain ⟨hf, hsec⟩ := h
      subst hf
      subst hsec
      simp
    · cases hcs : partitionNl cs with
      | mk f2 r2 =>
        simp only [partitionNl, if_neg hc, hcs, Prod.mk.injEq] at h
        obtain ⟨hf, hr⟩ := h
        subst hr
        obtain ⟨hcs1, hcs2⟩ := ih f2 sec hcs
        subst hf
        refine ⟨by simp [hcs1], ?_⟩
        simp only [List.mem_cons, not_or]
        exact ⟨fun hx => hc hx.symm, hcs2⟩

/-- When partition finds no newline, the whole chunk is newline-free. -/
lemma partitionNl_none (s : List Char) :
    ∀ f, partitionNl s = (f, none) → s = f ∧ '\n' ∉ f := by
  induction s with
  | nil =>
    intro f h
    simp only [partitionNl, Prod.mk.injEq] at h
    obtain ⟨hf, _⟩ := h
    subst hf
    simp
  | cons c cs ih =>
    intro f h
    by_cases hc : c = '\n'
    · subst hc
      simp [partitionNl] at h
    · cases hcs : partitionNl cs with
      | mk f2 r2 =>
        simp only [partitionNl, if_neg hc, hcs, Prod.mk.injEq] at h
        obtain ⟨hf, hr⟩ := h
        subst hr
        obtain ⟨hcs1, hcs2⟩ := ih f2 hcs
        subst hf
        refine ⟨by simp [hcs1], ?_⟩
        simp only [List.mem_cons, not_or]
        exact ⟨fun hx => hc hx.symm, hcs2⟩

/-- Splitting a concatenation at the first newline: a newline-free left
part is an initial segment of the text before the newline. -/
lemma split_before_newline (a : List Char) :
    ∀ t l r, '\n' ∉ a → '\n' ∉ l → a ++ t = l ++ '\n' :: r →
      ∃ l2, l = a ++ l2 ∧ t = l2 ++ '\n' :: r ∧ '\n' ∉ l2 := by
  induction a with
  | nil =>
    intro t l r _ hnl h
    exact ⟨l, rfl, by simpa using h, hnl⟩
  | cons c a2 ih =>
    intro t l r hna hnl h
    cases l with
    | nil =>
      simp only [List.nil_append, List.cons_append, List.cons.injEq] at h
      exact absurd (by simp [h.1]) hna
    | cons d l1 =>
      simp only [List.cons_append, List.cons.injEq] at h
      obtain ⟨hcd, h2⟩ := h
      have hna2 : '\n' ∉ a2 := fun hm => hna (List.mem_cons_of_mem _ hm)
      have hnl1 : '\n' ∉ l1 := fun hm => hnl (List.mem_cons_of_mem _ hm)
      obtain ⟨l2, hl, ht, hnl2⟩ := ih t l1 r hna2 hnl1 h2
      exact ⟨l2, by simp [hcd, hl], ht, hnl2⟩

/-- Two splits of the same text at its first newline coincide. -/
lemma split_at_first_newline (a b l r : List Char) (hna : '\n' ∉ a) (hnl : '\n' ∉ l)
    (h : a ++ '\n' :: b = l ++ '\n' :: r) : a = l ∧ b = r := by
  obtain ⟨l2, hl, ht, hnl2⟩ := split_before_newline a ('\n' :: b) l r hna hnl h
  cases l2 with
  | nil =>
    simp only [List.append_nil] at hl
    simp only [List.nil_append, List.cons.injEq] at ht
    exact ⟨hl.symm, ht.2⟩
  | cons x l3 =>
    simp only [List.cons_append, List.cons.injEq] at ht
    exact absurd (by simp [← ht.1]) hnl2

/-- A single pass of _read_line_parts over a sentinel-free buffer whose
pending content contains a newline stops at that first newline: the
collected parts are exactly the text before it, and the remaining
buffer holds exactly the text after it. -/
lemma readLineParts_newline (b : List Chunk) :
    ∀ (c : Bool) (l r : List Char), (∀ ch ∈ b, ch ≠ Chunk.close) → '\n' ∉ l →
      chunksContent b = l ++ '\n' :: r →
      ∃ parts buf2, readLineParts b c = (parts, LineTerm.newline, buf2, c) ∧
        parts.flatten = l ∧ chunksContent buf2 = r ∧
        ∀ ch ∈ buf2, ch ≠ Chunk.close := by
  induction b with
  | nil =>
    intro c l r _ _ hc
    exfalso
    simp only [chunksContent, List.map_nil, List.flatten_nil] at hc
    cases l with
    | nil => simp at hc
    | cons x xs => simp at hc
  | cons ch rest ih =>
    intro c l r hnc hnl hc
    cases ch with
    | close => exact absurd rfl (hnc Chunk.close (by simp))
    | str s =>
      have hcontent : s ++ chunksContent rest = l ++ '\n' :: r := by
        simpa [chunksContent, chunkChars] using hc
      cases hp : partitionNl s with
      | mk first osec =>
        cases osec with
        | some second =>
          obtain ⟨hs, hnf⟩ := partitionNl_some s first second hp
          have heq : first ++ '\n' :: (second ++ chunksContent rest) = l ++ '\n' :: r := by
            rw [hs] at hcontent
            simpa using hcontent
          obtain ⟨hfl, hsr⟩ := split_at_first_newline first _ l r hnf hnl heq
          refine ⟨[first], Chunk.str second :: rest, ?_, ?_, ?_, ?_⟩
          · simp [readLineParts, hp]
          · simpa using hfl
          · simpa [chunksContent, chunkChars] using hsr
          · intro ch2 hm
            rcases List.mem_cons.mp hm with h1 | h2
            · subst h1
              simp
            · exact hnc ch2 (by simp [h2])
        | none =>
          obtain ⟨hs, hnf⟩ := partitionNl_none s first hp
          rw [hs] at hcontent
          obtain ⟨l2, hl, ht, hnl2⟩ := split_before_newline first _ l r hnf hnl hcontent
          obtain ⟨parts, buf2, hrp, hjoin, hcr, hnc2⟩ :=
            ih c l2 r (fun ch2 hm => hnc ch2 (by simp [hm])) hnl2 ht
          refine ⟨first :: parts, buf2, ?_, ?_, hcr, hnc2⟩
          · simp [readLineParts, hp, hrp]
          · simp [hjoin, hl]

/-- The buffer after a sequence of writes is the written chunks appended
in order; writes do not change the closed flag. -/
lemma writeAll_spec (ws : List (List Char)) :
    ∀ st : PipeState, (writeAll ws st).buffer = st.buffer ++ ws.map Chunk.str ∧
      (writeAll ws st).closed = st.closed := by
  induction ws with
  | nil =>
    intro st
    simp [writeAll]
  | cons w ws2 ih =>
    intro st
    obtain ⟨h1, h2⟩ := ih (pipeWrite st w)
    constructor
    · show (writeAll ws2 (pipeWrite st w)).buffer = st.buffer ++ List.map Chunk.str (w :: ws2)
      rw [h1]
      simp [pipeWrite]
    · show (writeAll ws2 (pipeWrite st w)).closed = st.closed
      rw [h2]
      rfl

/-- The pending content of a buffer of plain text chunks is their
concatenation. -/
lemma chunksContent_strs (ws : List (List Char)) :
    chunksContent (ws.map Chunk.str) = ws.flatten := by
  induction ws with
  | nil => rfl
  | cons w ws2 ih =>
    simp only [chunksContent, List.map_cons, List.flatten_cons, chunkChars] at ih ⊢
    rw [ih]

/-- A drained, closed pipe never returns from readline: with an empty
buffer and the closed flag set, the loop hits the continue branch on
every iteration, for any fuel and any accumulated parts. -/
lemma readlineFuel_drained (fuel : Nat) :
    ∀ acc, readlineFuel fuel acc { buffer := [], closed := true } = none := by
  induction fuel with
  | zero =>
    intro acc
    rfl
  | succ n ih =>
    intro acc
    simp [readlineFuel, readLineParts, ih]

/-- An active skip-while instance consumes every line of a matching
block without changing state. -/
lemma skipWhileFeed_matching (search : List Char → List Char → Bool) (R : List Char)
    (pre : List (List Char)) (tail : List (List Char))
    (hpre : ∀ l ∈ pre, search R l = true) :
    skipWhileFeed search R { regex := some R, finished := false } (pre ++ tail) =
      skipWhileFeed search R { regex := some R, finished := false } tail := by
  induction pre with
  | nil => rfl
  | cons p ps ih =>
    have hp : search R p = true := hpre p (by simp)
    have hps : ∀ l ∈ ps, search R l = true := fun l hm => hpre l (by simp [hm])
    simp only [List.cons_append, skipWhileFeed, skipWhileHandleLine, hp]
    exact ih hps

/-- Case-insensitive character equality is symmetric. -/
lemma ciEqChar_symm (a b : Char) : ciEqChar a b = ciEqChar b a := by
  simp only [ciEqChar]
  cases h : pyLower a == pyLower b with
  | true => simp only [beq_iff_eq] at h; simp [h]
  | false =>
    rcases h2 : pyLower b == pyLower a with _ | _
    · rfl
    · simp only [beq_iff_eq] at h2
      simp [h2] at h

/-- A case-variant of the pattern, extended arbitrarily to the right,
matches at the start of the line. -/
lemma ciListEq_matchesAt (mid R : List Char) (h : ciListEq mid R = true)
    (t : List Char) : ciMatchesAt R (mid ++ t) = true := by
  induction mid generalizing R with
  | nil =>
    cases R with
    | nil => simp [ciMatchesAt]
    | cons b bs => simp [ciListEq] at h
  | cons a as ih =>
    cases R with
    | nil => simp [ciListEq] at h
    | cons b bs =>
      simp only [ciListEq, Bool.and_eq_true] at h
      simp only [List.cons_append, ciMatchesAt, Bool.and_eq_true]
      exact ⟨by rw [ciEqChar_symm]; exact h.1, ih bs h.2⟩

/-- A pattern matching at the start of some suffix is found by the
unanchored search. -/
lemma matchesAt_reSearchCI (R : List Char) (pre s : List Char)
    (h : ciMatchesAt R s = true) : reSearchCI R (pre ++ s) = true := by
  induction pre with
  | nil =>
    cases s with
    | nil => simpa [reSearchCI] using h
    | cons c rest => simp [reSearchCI, h]
  | cons p ps ih => simp [reSearchCI, ih]

/-! ## Claim theorems -/

/-- C1, counterexample: the run built-in does not consume the line
unconditionally.  With an oracle under which every shell command fails,
handle_line of ShellRunner.run returns False for the concrete command
text "false" on the line "x", so the engine does not advance. -/
theorem run_failure_not_finished :
    (shellRun (fun _ => false) [] "false" "x").1 = false := rfl

/-- C1, amended: ShellRunner.run records the prompted command with
consume=true in the history and reports the line finished exactly when
the executed shell command (the command text joined to the line)
exited successfully; on a failing command the line is not consumed. -/
theorem run_finished_iff_success (exec : String → Bool) (h : History)
    (cmd line : String) :
    shellRun exec h cmd line = (exec (fullCommand cmd line), h ++ [(cmd, true)]) := rfl

/-- C4, counterexample: the main loop does not terminate exactly on the
empty input string.  The raw line consisting of a single newline is not
the empty string, yet the loop breaks on it: with input lines "\n" and
"x" nothing is dispatched, the loop having terminated at the first
(non-empty) line. -/
theorem mainloop_breaks_on_blank_line :
    outerLoop [['\n'], ['x']] = [] ∧ (['\n'] : List Char) ≠ [] := by
  constructor
  · rfl
  · simp

/-- C4, amended: the main loop terminates normally exactly when the line
read from the input stream strips to the empty string (true at EOF and
on blank or whitespace-only lines), and every line up to that point is
dispatched in stripped form: the dispatched lines are precisely the
stripped input lines up to the first one that strips to empty. -/
theorem mainloop_dispatches_until_blank (inputs : List (List Char)) :
    outerLoop inputs = (inputs.map pyStrip).takeWhile (fun l => !l.isEmpty) := by
  induction inputs with
  | nil => rfl
  | cons raw rest ih =>
    simp only [outerLoop, List.map_cons, List.takeWhile_cons]
    cases h : (pyStrip raw).isEmpty <;> simp [h, ih]

/-- C6: round-trip through the persisted store.  For every key, command
text, consume flag and prior store contents, storing and then looking
the key up (from any store instance over the same file: the lookup
consults only the file contents) yields a runner command; on every
dispatched line that runner executes exactly the stored command against
the line and returns exactly the stored consume flag as its finished
result, for every execution oracle (independent of the executed
command's success). -/
theorem store_lookup_roundtrip (exec : String → Bool) (d : StoreData) (k : Char)
    (cmd : String) (flag : Bool) (line : String) :
    (lookupRunner exec (storeSet d k cmd flag) k).map (fun r => r line) =
      some (fullCommand cmd line, flag) := by
  simp [lookupRunner, storeGet?_storeSet]

/-- C7: user bindings take priority.  For every keystroke that is both a
key of the persisted store and a key of the built-in table, resolution
returns the stored user binding, never the built-in. -/
theorem user_binding_priority (d : StoreData) (c : Char) (cmd : String) (flag : Bool)
    (hstore : storeGet? d c = some (cmd, flag)) (_hbuiltin : c ∈ builtinKeys) :
    resolveKeystroke d c = Resolution.stored cmd flag := by
  simp [resolveKeystroke, hstore]

/-- C7, witness: the key of the run built-in, rebound by the user to the
command "echo" with consume=true, resolves to the user binding. -/
theorem user_binding_priority_witness :
    resolveKeystroke [('!', ("echo", true))] '!' = Resolution.stored "echo" true :=
  user_binding_priority [('!', ("echo", true))] '!' "echo" true (by decide) (by decide)

/-- C8: an unresolvable keystroke is not an error.  When the keystroke is
bound neither in the persisted store nor in the built-in table, the
engine writes the built-in menu followed by the stored-binding menu and
re-prompts for another keystroke on the same line: the inner loop
continues with the remaining keystrokes on the unchanged line, its
finished result unchanged, consuming no input line. -/
theorem unresolved_keystroke_shows_help (d : StoreData) (c : Char)
    (hl : Resolution → String → Bool) (line : String) (ks : List Char)
    (hstore : storeGet? d c = none) (hbuiltin : c ∉ builtinKeys) :
    dispatchKeystroke d c = DispatchOutcome.helpShown (showHelpOutput d) ∧
    lineLoop d hl line (c :: ks) =
      ((lineLoop d hl line ks).1, showHelpOutput d :: (lineLoop d hl line ks).2) := by
  have hres : resolveKeystroke d c = Resolution.unbound := by
    simp [resolveKeystroke, hstore, hbuiltin]
  have hdis : dispatchKeystroke d c = DispatchOutcome.helpShown (showHelpOutput d) := by
    simp [dispatchKeystroke, hres]
  exact ⟨hdis, by simp [lineLoop, hdis]⟩

/-- C8, witness: on an empty store, the keystroke z resolves to nothing
and the engine reacts by showing the help menus. -/
theorem unresolved_keystroke_shows_help_witness :
    dispatchKeystroke [] 'z' = DispatchOutcome.helpShown (showHelpOutput []) :=
  (unresolved_keystroke_shows_help [] 'z' (fun _ _ => false) "x" []
    (by decide) (by decide)).1

/-- C9: the repeat and save-last built-ins fail on an empty history and
only there.  Reading the last entry of the empty history list (Python
history[-1]) raises IndexError, modelled by the none result: repeat and
save-last return none exactly when the history is empty, so a non-empty
history (at least one explicit run or run-no-consume in this process)
is a necessary precondition for these two operations not to fail. -/
theorem history_empty_fails (exec : String → Bool) (h : History) (line : String)
    (d : StoreData) (k : Char) :
    (shellRepeat exec h line = none ↔ h = []) ∧
    (saveLast h d k = none ↔ h = []) := by
  cases h with
  | nil => simp [shellRepeat, saveLast, lastEntry]
  | cons cv t =>
    obtain ⟨v, hv⟩ := lastEntry_cons_isSome cv t
    simp [shellRepeat, saveLast, hv]

/-- C2: the skip-while state machine.  For every match predicate (the
external regex engine applied to the prompted regex R), an active
instance returns True and stays active on each matching line, and on
the first non-matching line sets its finished flag and returns False;
feeding a matching block followed by a non-matching line from the fresh
(one-time-prompt) state consumes exactly the matching block and leaves
the non-matching line unconsumed for fresh dispatch; the finished state
is terminal: done_processing reports true and no further handle_line
call can clear the flag. -/
theorem skipWhile_state_machine (search : List Char → List Char → Bool) (R : List Char)
    (pre : List (List Char)) (l0 : List Char) (rest : List (List Char))
    (hpre : ∀ l ∈ pre, search R l = true) (hl0 : search R l0 = false) :
    (∀ l, search R l = true →
      skipWhileHandleLine search R { regex := some R, finished := false } l =
        (true, { regex := some R, finished := false })) ∧
    (∀ l, search R l = false →
      skipWhileHandleLine search R { regex := some R, finished := false } l =
        (false, { regex := some R, finished := true })) ∧
    skipWhileFeed search R { regex := none, finished := false } (pre ++ l0 :: rest) =
      ({ regex := some R, finished := true }, l0 :: rest) ∧
    skipWhileDone { regex := some R, finished := true } = true ∧
    (∀ pin s line, s.finished = true →
      ((skipWhileHandleLine search pin s line).2).finished = true) := by
  refine ⟨?_, ?_, ?_, rfl, ?_⟩
  · intro l hm
    simp [skipWhileHandleLine, hm]
  · intro l hm
    simp [skipWhileHandleLine, hm]
  · cases pre with
    | nil => simp [skipWhileFeed, skipWhileHandleLine, hl0]
    | cons p ps =>
      have hp : search R p = true := hpre p (by simp)
      have hps : ∀ l ∈ ps, search R l = true := fun l hm => hpre l (by simp [hm])
      have hstep : skipWhileFeed search R { regex := none, finished := false }
          ((p :: ps) ++ l0 :: rest) =
          skipWhileFeed search R { regex := some R, finished := false }
            (ps ++ l0 :: rest) := by
        simp [skipWhileFeed, skipWhileHandleLine, hp]
      rw [hstep, skipWhileFeed_matching search R ps (l0 :: rest) hps]
      simp [skipWhileFeed, skipWhileHandleLine, hl0]
  · intro pin s line hf
    obtain ⟨reg, fin⟩ := s
    cases fin with
    | false => simp at hf
    | true =>
      cases reg with
      | none => cases hsr : search pin line <;> simp [skipWhileHandleLine, hsr]
      | some r0 => cases hsr : search r0 line <;> simp [skipWhileHandleLine, hsr]

/-- C2, witness: with the match predicate testing list equality against
the prompted regex, the block of two matching lines is consumed and the
first non-matching line is left unconsumed with the instance finished. -/
theorem skipWhile_state_machine_witness :
    skipWhileFeed (fun r l => r == l) ['a'] { regex := none, finished := false }
        [['a'], ['a'], ['b'], ['c']] =
      ({ regex := some ['a'], finished := true }, [['b'], ['c']]) :=
  (skipWhile_state_machine (fun r l => r == l) ['a'] [['a'], ['a']] ['b'] [['c']]
    (by decide) (by decide)).2.2.1

/-- C10: the skip commands test the prompted pattern case-insensitively
and as a substring search anywhere in the line.  For every literal
pattern R and every line containing, at any position, a block differing
from R only in letter case, the search succeeds: skip-while's
handle_line consumes the line and stays active, while skip-until's
handle_line finishes on it — neither a case-sensitive nor an anchored
match. -/
theorem skip_commands_ignorecase_search (R mid pre post : List Char)
    (hmid : ciListEq mid R = true) :
    reSearchCI R (pre ++ mid ++ post) = true ∧
    skipWhileHandleLine reSearchCI R { regex := some R, finished := false }
        (pre ++ mid ++ post) =
      (true, { regex := some R, finished := false }) ∧
    skipUntilHandleLine reSearchCI R { regex := some R, finished := false }
        (pre ++ mid ++ post) =
      (false, { regex := some R, finished := true }) := by
  have hm : ciMatchesAt R (mid ++ post) = true := ciListEq_matchesAt mid R hmid post
  have hs : reSearchCI R (pre ++ (mid ++ post)) = true :=
    matchesAt_reSearchCI R pre (mid ++ post) hm
  have hs2 : reSearchCI R (pre ++ mid ++ post) = true := by
    rw [List.append_assoc]
    exact hs
  refine ⟨hs2, ?_, ?_⟩
  · simp [skipWhileHandleLine, hs2, hs]
  · simp [skipUntilHandleLine, hs2, hs]

/-- C10, witness: the pattern foo occurs mid-line as FOo; skip-while
still treats the line as matching. -/
theorem skip_commands_ignorecase_search_witness :
    skipWhileHandleLine reSearchCI ['f', 'o', 'o']
        { regex := some ['f', 'o', 'o'], finished := false }
        ['x', 'F', 'O', 'o', 'y'] =
      (true, { regex := some ['f', 'o', 'o'], finished := false }) :=
  (skip_commands_ignorecase_search ['f', 'o', 'o'] ['F', 'O', 'o'] ['x'] ['y']
    (by decide)).2.1

/-- C5: readline returns exactly the written characters up to and
including the next newline, in write order and independently of
chunking.  For every sequence of writes whose concatenated text is a
newline-free line, the newline, and a remainder, readline (any fuel,
one loop pass suffices) returns the line with its newline, and the
remainder stays buffered for the next read with the stream still
open. -/
theorem readline_chunking (ws : List (List Char)) (l r : List Char) (fuel : Nat)
    (hnl : '\n' ∉ l) (hj : ws.flatten = l ++ '\n' :: r) :
    ∃ st2, readlineFuel (fuel + 1) [] (writeAll ws freshPipe) =
        some (l ++ ['\n'], st2) ∧
      pipeContent st2 = r ∧ st2.closed = false := by
  have hbuf : (writeAll ws freshPipe).buffer = ws.map Chunk.str := by
    simpa [freshPipe] using (writeAll_spec ws freshPipe).1
  have hcl : (writeAll ws freshPipe).closed = false := by
    simpa [freshPipe] using (writeAll_spec ws freshPipe).2
  have hnc : ∀ ch ∈ (writeAll ws freshPipe).buffer, ch ≠ Chunk.close := by
    rw [hbuf]
    intro ch hm
    obtain ⟨s, _, hs⟩ := List.mem_map.mp hm
    rw [← hs]
    simp
  have hcontent : chunksContent (writeAll ws freshPipe).buffer = l ++ '\n' :: r := by
    rw [hbuf, chunksContent_strs, hj]
  obtain ⟨parts, buf2, hrp, hjp, hcr, _⟩ :=
    readLineParts_newline (writeAll ws freshPipe).buffer
      (writeAll ws freshPipe).closed l r hnc hnl hcontent
  rw [hcl] at hrp
  refine ⟨{ buffer := buf2, closed := false }, ?_, hcr, rfl⟩
  simp [readlineFuel, hcl, hrp, hjp]

/-- C5, witness: writing he then llo and a newline yields the line hello
with its newline, leaving nothing buffered. -/
theorem readline_chunking_witness :
    ∃ st2, readlineFuel 1 [] (writeAll [['h', 'e'], ['l', 'l', 'o', '\n']] freshPipe) =
        some (['h', 'e', 'l', 'l', 'o', '\n'], st2) ∧
      pipeContent st2 = [] ∧ st2.closed = false :=
  readline_chunking [['h', 'e'], ['l', 'l', 'o', '\n']] ['h', 'e', 'l', 'l', 'o'] [] 0
    (by decide) (by decide)

/-- C3: EOF is not idempotent in the code.  In the scenario of
TestPipe.test_readline (write both lines in one chunk, then close), the
first three readline calls return the two lines and then the empty
string, exactly as the test asserts — but the empty-string EOF result
is produced by consuming the CLOSE sentinel, leaving an empty closed
buffer, and from that state every further readline call returns none
for every fuel: the loop busy-spins on its continue branch forever
instead of returning the empty string again. -/
theorem readline_after_drain_diverges :
    readlineFuel 1 [] testReadlinePipe =
      some ("one\n".toList,
        { buffer := [Chunk.str "two\n".toList, Chunk.close], closed := true }) ∧
    readlineFuel 1 [] { buffer := [Chunk.str "two\n".toList, Chunk.close], closed := true } =
      some ("two\n".toList, { buffer := [Chunk.str [], Chunk.close], closed := true }) ∧
    readlineFuel 1 [] { buffer := [Chunk.str [], Chunk.close], closed := true } =
      some ([], { buffer := [], closed := true }) ∧
    ∀ fuel acc, readlineFuel fuel acc { buffer := [], closed := true } = none := by
  refine ⟨?_, ?_, ?_, fun fuel acc => readlineFuel_drained fuel acc⟩ <;> decide

end Sedshell
